import Mathlib

/-!
# Verification of the bsp-rag retrieval and ranking engine

Shallow embedding of the core of the `bsp-rag` repository: the chunk /
document data model (`src/lib/types.ts`), the embedding service
(`src/lib/services/embeddingService.ts`) and the document store with its
fused lexical/semantic search (`src/lib/services/documentStore.ts`).

JavaScript `number` values are modelled as real numbers (`ℝ`); machine
floating point rounding is outside the model.  External asynchronous
collaborators (the embedding provider, the PDF pipeline, `localStorage`)
are modelled as explicit function parameters and explicit state.
-/

namespace BspRag

/-- Metadata mirrored onto every chunk (`DocumentChunk.metadata` in
`src/lib/types.ts`). -/
structure ChunkMetadata where
  documentId : Int
  circularNumber : String
  title : String
  source : String
deriving DecidableEq, Repr

/-- `DocumentChunk` from `src/lib/types.ts`: a text span with an optional
embedding vector and denormalized metadata. -/
structure DocumentChunk where
  text : String
  embedding : Option (List ℝ)
  metadata : ChunkMetadata

/-- `IssuanceDocument` from `src/lib/types.ts`.  `content` and `chunks`
are optional (`undefined` until the document is processed); `downloadLink`
is `string | null`. -/
structure IssuanceDocument where
  id : Int
  title : String
  circularNumber : String
  issuanceType : String
  dateIssued : String
  downloadLink : Option String
  content : Option String
  chunks : Option (List DocumentChunk)

/-- `SearchResult` from `src/lib/types.ts`.  Although the TypeScript
interface declares `source` and `text` as `string`, the lexical branch of
`documentStore.semanticSearch` assigns `doc.source` (a field that does not
exist on `IssuanceDocument`, hence `undefined` at runtime) and
`doc.content` (optional), so both fields are modelled as `Option String`. -/
structure SearchResult where
  documentId : Int
  circularNumber : String
  title : String
  source : Option String
  text : Option String
  score : ℝ

/-! ## Embedding service (`src/lib/services/embeddingService.ts`) -/

/-- The truthiness test `chunk.embedding && chunk.embedding.length > 0`
used by `searchSimilarChunks` (embeddingService.ts:112-114) and by
`semanticSearch` (documentStore.ts:216). -/
def hasEmbedding (c : DocumentChunk) : Bool :=
  match c.embedding with
  | some e => decide (0 < e.length)
  | none => false

/-- `EmbeddingService.cosineSimilarity` (embeddingService.ts:90-102): the
loop runs over the indices of `vecA`, accumulating the dot product and the
two squared norms, and returns `dot / (sqrt normA * sqrt normB)`.
Out-of-range accesses are modelled with default `0`; in JavaScript a
shorter `vecB` would instead make every accumulator `NaN`, a case no claim
exercises (all claims use equal-length vectors). -/
noncomputable def cosineSimilarity (vecA vecB : List ℝ) : ℝ :=
  let dotProduct := ∑ i ∈ Finset.range vecA.length, vecA.getD i 0 * vecB.getD i 0
  let normA := ∑ i ∈ Finset.range vecA.length, vecA.getD i 0 * vecA.getD i 0
  let normB := ∑ i ∈ Finset.range vecA.length, vecB.getD i 0 * vecB.getD i 0
  dotProduct / (Real.sqrt normA * Real.sqrt normB)

/-- The ordering used by `results.sort((a, b) => b.score - a.score)`:
`a` may come before `b` exactly when `b.score ≤ a.score`. -/
def scoreGE (a b : SearchResult) : Prop := b.score ≤ a.score

noncomputable instance : DecidableRel scoreGE := fun a b => Real.decidableLE b.score a.score

instance : IsTotal SearchResult scoreGE := ⟨fun a b => le_total b.score a.score⟩

instance : IsTrans SearchResult scoreGE := ⟨fun _ _ _ h1 h2 => le_trans h2 h1⟩

/-- Model of `Array.prototype.sort((a, b) => b.score - a.score)`
(embeddingService.ts:132 and documentStore.ts:248).  ECMAScript sort is
stable, and for the consistent numeric comparator `b.score - a.score` its
result is the unique stable descending-by-score permutation, which is what
insertion sort with `scoreGE` computes. -/
noncomputable def sortByScoreDesc (l : List SearchResult) : List SearchResult :=
  l.insertionSort scoreGE

/-- `EmbeddingService.searchSimilarChunks` (embeddingService.ts:107-133):
filter the chunks to those with a non-empty embedding, return `[]` when
none remain, otherwise score each against the query embedding with cosine
similarity, sort descending by score and keep the first `limit`. -/
noncomputable def searchSimilarChunks (queryEmbedding : List ℝ)
    (chunks : List DocumentChunk) (limit : Nat) : List SearchResult :=
  let chunksWithEmbeddings := chunks.filter hasEmbedding
  if chunksWithEmbeddings.isEmpty then []
  else
    let results := chunksWithEmbeddings.map (fun chunk =>
      { documentId := chunk.metadata.documentId
        circularNumber := chunk.metadata.circularNumber
        title := chunk.metadata.title
        source := some chunk.metadata.source
        text := some chunk.text
        score := cosineSimilarity queryEmbedding (chunk.embedding.getD []) })
    (sortByScoreDesc results).take limit

/-! ## Lexical matcher (`documentStore.semanticSearch`, documentStore.ts:196-213) -/

/-- Character-level splitter underlying `wordsOf`: cut the character list
at every space, keeping empty fragments (so `"a  b"` gives
`[[a], [], [b]]` and `""` gives `[[]]`), exactly as ECMAScript
`String.prototype.split(' ')` does. -/
def splitChars : List Char → List (List Char)
  | [] => [[]]
  | c :: cs =>
    let rest := splitChars cs
    if c = ' ' then [] :: rest
    else
      match rest with
      | [] => [[c]]
      | w :: ws => (c :: w) :: ws

/-- `s.split(' ')` (documentStore.ts:198, 200, 204): split on single
spaces, keeping empty fragments. -/
def wordsOf (s : String) : List String := (splitChars s.data).map String.mk

/-- `String.prototype.toLowerCase()` / `toLocaleLowerCase()`, modelled as
per-character ASCII lowercasing (the corpus identifiers and titles the
matcher compares are ASCII). -/
def lowerStr (s : String) : String := String.mk (s.data.map Char.toLower)

/-- The title test of documentStore.ts:199-202: some query word,
lowercased, occurs verbatim among the space-separated words of the
lowercased title. -/
def titleMatches (queryWords : List String) (doc : IssuanceDocument) : Bool :=
  queryWords.any (fun word => (wordsOf (lowerStr doc.title)).contains (lowerStr word))

/-- The classification-code test of documentStore.ts:203-206, identical to
the title test but over `doc.circularNumber`. -/
def circularNumberMatches (queryWords : List String) (doc : IssuanceDocument) : Bool :=
  queryWords.any (fun word => (wordsOf (lowerStr doc.circularNumber)).contains (lowerStr word))

/-- documentStore.ts:208: `matchingDocs = [...matchingDocCircularNumber,
...matchingDocs]` — classification-code matches ahead of title matches. -/
def matchingDocs (query : String) (docs : List IssuanceDocument) : List IssuanceDocument :=
  docs.filter (circularNumberMatches (wordsOf query)) ++ docs.filter (titleMatches (wordsOf query))

/-- The lexical `SearchResult` built at documentStore.ts:236-243: score is
the literal `1.0`, `source` is the non-existent `doc.source` (undefined),
`text` is the optional `doc.content`. -/
def docSearchResult (doc : IssuanceDocument) : SearchResult :=
  { documentId := doc.id
    circularNumber := doc.circularNumber
    title := doc.title
    source := none
    text := doc.content
    score := 1 }

/-- The lexical half of the fused list (documentStore.ts:236-243). -/
def lexicalResults (query : String) (docs : List IssuanceDocument) : List SearchResult :=
  (matchingDocs query docs).map docSearchResult

/-- `documentStore.semanticSearch` (documentStore.ts:192-249) after the
query embedding has been obtained from the provider: concatenate the
lexical matches (classification-code matches first, each with score 1.0)
ahead of the semantic results of `searchSimilarChunks`, sort the combined
list descending by score (stably) and truncate to `limit`. -/
noncomputable def semanticSearch (query : String) (docs : List IssuanceDocument)
    (chunks : List DocumentChunk) (limit : Nat) (queryEmbedding : List ℝ) :
    List SearchResult :=
  let searchResults := searchSimilarChunks queryEmbedding chunks limit
  let resultsWithMatchingDocs := lexicalResults query docs ++ searchResults
  (sortByScoreDesc resultsWithMatchingDocs).take limit

/-- `EmbeddingService.generateQueryEmbedding` (embeddingService.ts:78-85):
delegates to the provider and re-throws its error.  The provider is
modelled as a function returning `none` on failure. -/
def generateQueryEmbedding (provider : String → Option (List ℝ)) (query : String) :
    Option (List ℝ) :=
  provider query

/-- `documentStore.semanticSearch` including the awaited provider call of
documentStore.ts:229: if the provider fails the whole search rejects
(`none`); otherwise the pure fusion runs on the returned embedding. -/
noncomputable def semanticSearchRun (provider : String → Option (List ℝ)) (query : String)
    (docs : List IssuanceDocument) (chunks : List DocumentChunk) (limit : Nat) :
    Option (List SearchResult) :=
  (generateQueryEmbedding provider query).map
    (fun qe => semanticSearch query docs chunks limit qe)

/-! ## Batched embedding generation (`EmbeddingService.generateEmbeddings`,
embeddingService.ts:32-73) -/

/-- `EmbeddingService.generateEmbeddings`: the chunk list is processed in
sub-batches of 20.  On a successful provider call each chunk of the
sub-batch is re-emitted with its embedding attached; on a failed call the
sub-batch is appended to the result unmodified and the loop continues.
The provider is modelled as `List String → Option (List (List ℝ))`
(`none` = the fetch/parse threw); per the §4.2 contract it returns one
embedding per input text on success — the model pairs chunks and
embeddings positionally, as `data.data[j].embedding` does. -/
def generateEmbeddings (provider : List String → Option (List (List ℝ)))
    (chunks : List DocumentChunk) : List DocumentChunk :=
  if h : chunks.isEmpty then []
  else
    let batch := chunks.take 20
    let batchResult :=
      match provider (batch.map (fun c => c.text)) with
      | some embeddings =>
          List.zipWith (fun c e => { c with embedding := some e }) batch embeddings
      | none => batch
    batchResult ++ generateEmbeddings provider (chunks.drop 20)
termination_by chunks.length
decreasing_by
  simp only [List.length_drop]
  have : chunks ≠ [] := by simpa [List.isEmpty_iff] using h
  have : 0 < chunks.length := List.length_pos.mpr this
  omega

/-- Number of provider requests the `generateEmbeddings` loop issues for
`n` chunks: one per sub-batch of 20 (both the successful and the failed
fetches are issued requests). -/
def providerCallCount (n : Nat) : Nat := (n + 19) / 20

/-! ## Document store state (`src/lib/services/documentStore.ts`) -/

/-- The process-wide store: the two reactive in-memory collections
(`documentsStore`, `chunksStore`) and the two durable `localStorage`
entries (`rag_documents`, `rag_chunks`; `none` = key absent). -/
structure StoreState where
  documents : List IssuanceDocument
  chunks : List DocumentChunk
  storedDocuments : Option (List IssuanceDocument)
  storedChunks : Option (List DocumentChunk)

/-- JavaScript truthiness of an optional string (`doc.content`,
`doc.downloadLink`): `undefined`/`null` and `""` are falsy. -/
def strTruthy : Option String → Bool
  | some s => decide (s ≠ "")
  | none => false

/-- `Array.prototype.slice(-n)` for `n > 0`: the last `n` elements (the
whole array when it is shorter). -/
def takeLast (n : Nat) (l : List α) : List α := l.drop (l.length - n)

/-- documentStore.ts:126-129: a document as written to `rag_documents` —
the `chunks` field is stripped. -/
def docForStorage (d : IssuanceDocument) : IssuanceDocument := { d with chunks := none }

/-- documentStore.ts:133-136: a chunk as written to `rag_chunks` — the
`embedding` field is stripped. -/
def chunkForStorage (c : DocumentChunk) : DocumentChunk := { c with embedding := none }

/-- The `rag_documents` snapshot written at documentStore.ts:126-130. -/
def snapshotDocs (docs : List IssuanceDocument) : List IssuanceDocument :=
  docs.map docForStorage

/-- The `rag_chunks` snapshot written at documentStore.ts:133-145: strip
embeddings from the newly embedded chunks, append them to the previously
stored chunks, and keep only the last `maxStoredChunks = 1000`
(`[...existingChunks, ...chunksForStorage].slice(-maxStoredChunks)`). -/
def snapshotChunks (existingChunks newChunks : List DocumentChunk) : List DocumentChunk :=
  takeLast 1000 (existingChunks ++ newChunks.map chunkForStorage)

/-- The store state right after the two `localStorage` writes of
documentStore.ts:130 and 145: `rag_documents` holds the chunk-stripped
documents and `rag_chunks` the capped, embedding-stripped chunk list. -/
def snapshotWrite (st : StoreState) (docs : List IssuanceDocument)
    (existingChunks newChunks : List DocumentChunk) : StoreState :=
  { st with storedDocuments := some (snapshotDocs docs),
            storedChunks := some (snapshotChunks existingChunks newChunks) }

/-- `documentStore.loadFromStorage` (documentStore.ts:161-186): each
present `localStorage` entry replaces the corresponding in-memory
collection; returns whether anything was recovered
(`!!(docsStr || chunksStr)`). -/
def loadFromStorage (st : StoreState) : StoreState × Bool :=
  let st1 := match st.storedDocuments with
    | some docs => { st with documents := docs }
    | none => st
  let st2 := match st.storedChunks with
    | some chunks => { st1 with chunks := chunks }
    | none => st1
  (st2, st.storedDocuments.isSome || st.storedChunks.isSome)

/-- The per-batch loop body of `documentStore.processDocuments`
(documentStore.ts:77-150), processing `unprocessed` in batches of 5.
`pp` models `pdfService.processPdf` (download + extraction + splitting of
one document; `processMultiplePdfs` reassembles a ≤5-document batch in
original order, pdfService.ts:90-112).  Besides the final state the model
returns the number of documents sent to the PDF pipeline (each such
document is re-split) and the number of embedding-provider requests
issued.  `saveEmbeddingsToChroma` is an external write with no effect on
the store state and is not modelled.  A `localStorage` write failure is
swallowed at documentStore.ts:146-148; the model assumes the writes
succeed. -/
def processLoop (pp : IssuanceDocument → IssuanceDocument)
    (provider : List String → Option (List (List ℝ)))
    (unprocessed allProcessed : List IssuanceDocument) (st : StoreState) :
    StoreState × Nat × Nat :=
  if h : unprocessed.isEmpty then (st, 0, 0)
  else
    let batch := unprocessed.take 5
    let processedBatch := batch.map pp
    let allChunks := (processedBatch.map (fun d => d.chunks.getD [])).flatten
    let chunksWithEmbeddings := generateEmbeddings provider allChunks
    let finalProcessedBatch := processedBatch.map (fun doc =>
      let docChunksWithEmbeddings :=
        chunksWithEmbeddings.filter (fun c => decide (c.metadata.documentId = doc.id))
      match doc.chunks with
      | none => doc
      | some _ => { doc with chunks := some docChunksWithEmbeddings })
    let allProcessed' := allProcessed ++ finalProcessedBatch
    let newChunks := chunksWithEmbeddings.filter (fun c => c.embedding.isSome)
    let st' : StoreState :=
      { documents := allProcessed'
        chunks := st.chunks ++ newChunks
        storedDocuments := some (snapshotDocs allProcessed')
        storedChunks := some (snapshotChunks (st.storedChunks.getD []) newChunks) }
    let rest := processLoop pp provider (unprocessed.drop 5) allProcessed' st'
    (rest.1, batch.length + rest.2.1, providerCallCount allChunks.length + rest.2.2)
termination_by unprocessed.length
decreasing_by
  simp only [List.length_drop]
  have : unprocessed ≠ [] := by simpa [List.isEmpty_iff] using h
  have : 0 < unprocessed.length := List.length_pos.mpr this
  omega

/-- `documentStore.processDocuments` (documentStore.ts:55-156): filter the
held documents to the unprocessed ones (`!doc.content && doc.downloadLink`);
if none remain, return immediately without touching any state or issuing
any call; otherwise run the batch loop seeded with the already-processed
documents (`docs.filter(doc => doc.content)`). -/
def processDocuments (pp : IssuanceDocument → IssuanceDocument)
    (provider : List String → Option (List (List ℝ))) (st : StoreState) :
    StoreState × Nat × Nat :=
  let docs := st.documents
  let unprocessedDocs := docs.filter (fun d => !strTruthy d.content && strTruthy d.downloadLink)
  if unprocessedDocs.isEmpty then (st, 0, 0)
  else processLoop pp provider unprocessedDocs (docs.filter (fun d => strTruthy d.content)) st

/-- The identifying fields of a document, in the sense of the round-trip
property: everything except the optional extracted content and the owned
chunks. -/
def identifyingFields (d : IssuanceDocument) :
    Int × String × String × String × String × Option String :=
  (d.id, d.title, d.circularNumber, d.issuanceType, d.dateIssued, d.downloadLink)

/-! ## Concrete corpus used to instantiate the theorems -/

/-- A document whose classification code matches the query `"1133"`. -/
def sampleDoc1 : IssuanceDocument :=
  { id := 1, title := "foo", circularNumber := "1133", issuanceType := "Circular",
    dateIssued := "2020-01-01", downloadLink := some "http://x", content := some "body one",
    chunks := none }

/-- A document whose title (but not classification code) matches `"1133"`. -/
def sampleDoc2 : IssuanceDocument :=
  { id := 2, title := "1133", circularNumber := "c2", issuanceType := "Circular",
    dateIssued := "2020-02-02", downloadLink := some "http://y", content := some "body two",
    chunks := none }

/-- A document matching `"1133"` on both its title and its classification
code. -/
def sampleDoc3 : IssuanceDocument :=
  { id := 3, title := "rules 1133", circularNumber := "1133", issuanceType := "Circular",
    dateIssued := "2020-03-03", downloadLink := some "http://z", content := some "body three",
    chunks := none }

/-- A document matching nothing in the query `"zzz"`. -/
def sampleDoc4 : IssuanceDocument :=
  { id := 4, title := "aaa", circularNumber := "bbb", issuanceType := "Circular",
    dateIssued := "2020-04-04", downloadLink := some "http://w", content := some "body four",
    chunks := none }

/-- A chunk with no embedding attached. -/
def sampleChunk : DocumentChunk :=
  { text := "chunk text", embedding := none,
    metadata := { documentId := 1, circularNumber := "1133", title := "foo",
                  source := "http://x" } }

/-- A store whose only document is already processed. -/
def sampleState : StoreState :=
  { documents := [sampleDoc1], chunks := [], storedDocuments := none, storedChunks := none }

/-! ## General lemmas about the descending stable sort -/

open List

theorem sortByScoreDesc_perm (l : List SearchResult) : sortByScoreDesc l ~ l :=
  List.perm_insertionSort scoreGE l

theorem sortByScoreDesc_sorted (l : List SearchResult) :
    List.Sorted scoreGE (sortByScoreDesc l) :=
  List.sorted_insertionSort scoreGE l

theorem pair_sublist_sortByScoreDesc {a b : SearchResult} {l : List SearchResult}
    (hab : scoreGE a b) (h : [a, b] <+ l) : [a, b] <+ sortByScoreDesc l :=
  List.pair_sublist_insertionSort hab h

/-- Stability of `orderedInsert` seen through a filter that only selects
elements of one fixed score: inserting `x` never reorders the selected
elements, and when `x` itself is selected it lands in front of them. -/
theorem filter_orderedInsert_of_score (p : SearchResult → Bool) (s : ℝ)
    (x : SearchResult) (hx : p x = true → x.score = s) :
    ∀ S : List SearchResult, (∀ y ∈ S, p y = true → y.score = s) →
      (List.orderedInsert scoreGE x S).filter p =
        if p x then x :: S.filter p else S.filter p := by
  intro S
  induction S with
  | nil => intro _; simp [List.orderedInsert, List.filter_cons]
  | cons y ys ih =>
    intro hSp
    by_cases hxy : scoreGE x y
    · simp only [List.orderedInsert, if_pos hxy, List.filter_cons]
    · simp only [List.orderedInsert, if_neg hxy, List.filter_cons]
      have hys : ∀ y' ∈ ys, p y' = true → y'.score = s :=
        fun y' hy' => hSp y' (List.mem_cons_of_mem _ hy')
      by_cases hpx : p x = true
      · have hxs : x.score = s := hx hpx
        have hpy : ¬p y = true := by
          intro hpy
          have hys' : y.score = s := hSp y (List.mem_cons_self _ _) hpy
          exact hxy (by simp only [scoreGE, hxs, hys']; exact le_refl s)
        simp only [Bool.not_eq_true] at hpy
        rw [ih hys, if_pos hpx, if_pos hpx, hpy]
        simp
      · simp only [Bool.not_eq_true] at hpx
        rw [ih hys, hpx]
        simp

/-- Stability of the descending sort: a filter that only selects elements
of one fixed score commutes with sorting — tied elements keep their
original relative order. -/
theorem filter_sortByScoreDesc (p : SearchResult → Bool) (s : ℝ) :
    ∀ l : List SearchResult, (∀ x ∈ l, p x = true → x.score = s) →
      (sortByScoreDesc l).filter p = l.filter p := by
  intro l
  induction l with
  | nil => intro _; rfl
  | cons x xs ih =>
    intro hl
    have hx : p x = true → x.score = s := hl x (List.mem_cons_self _ _)
    have hxs : ∀ y ∈ xs, p y = true → y.score = s :=
      fun y hy => hl y (List.mem_cons_of_mem _ hy)
    have hsort : ∀ y ∈ sortByScoreDesc xs, p y = true → y.score = s := by
      intro y hy
      exact hxs y ((List.mem_insertionSort scoreGE).mp hy)
    show (List.orderedInsert scoreGE x (sortByScoreDesc xs)).filter p = _
    rw [filter_orderedInsert_of_score p s x hx (sortByScoreDesc xs) hsort, ih hxs,
      List.filter_cons]

/-! ## Lemmas about `takeLast` (the `slice(-n)` model) -/

theorem takeLast_length_le (n : Nat) (l : List α) : (takeLast n l).length ≤ n := by
  simp only [takeLast, List.length_drop]
  omega

theorem takeLast_of_length_le {n : Nat} {l : List α} (h : l.length ≤ n) :
    takeLast n l = l := by
  simp only [takeLast, Nat.sub_eq_zero_of_le h, List.drop_zero]

theorem takeLast_eq_drop {n k : Nat} {l : List α} (h : l.length = n + k) :
    takeLast n l = l.drop k := by
  simp only [takeLast, h]
  congr 1
  omega

theorem takeLast_sublist (n : Nat) (l : List α) : takeLast n l <+ l :=
  List.drop_sublist _ _

theorem map_takeLast (f : α → β) (n : Nat) (l : List α) :
    (takeLast n l).map f = takeLast n (l.map f) := by
  simp only [takeLast, List.map_drop, List.length_map]

/-- Re-capping an already-capped list and appending more is the same as
capping the full concatenation: the FIFO eviction of `slice(-n)` composes. -/
theorem takeLast_append_takeLast (n : Nat) (a b : List α) :
    takeLast n (takeLast n a ++ b) = takeLast n (a ++ b) := by
  by_cases h : a.length ≤ n
  · rw [takeLast_of_length_le h]
  · have hn : n ≤ a.length := le_of_lt (Nat.lt_of_not_le h)
    have hlen : (takeLast n a).length = n := by
      simp only [takeLast, List.length_drop]
      omega
    show (takeLast n a ++ b).drop ((takeLast n a ++ b).length - n) =
      (a ++ b).drop ((a ++ b).length - n)
    rw [List.length_append, List.length_append, hlen,
      List.drop_append_eq_append_drop, List.drop_append_eq_append_drop, hlen]
    congr 1
    · show (a.drop (a.length - n)).drop (n + b.length - n) = a.drop (a.length + b.length - n)
      rw [List.drop_drop]
      congr 1
      omega
    · congr 1
      omega

/-! ## C7 — cosine self-similarity -/

/-- C7: for every non-zero vector `v`, `cosineSimilarity v v = 1` —
self-similarity is maximal for the `dot / (‖a‖ * ‖b‖)` implementation of
`EmbeddingService.cosineSimilarity`. -/
theorem cosineSimilarity_self (v : List ℝ) (hv : ∃ x ∈ v, x ≠ 0) :
    cosineSimilarity v v = 1 := by
  obtain ⟨x, hx, hx0⟩ := hv
  obtain ⟨i, hi, hgi⟩ := List.mem_iff_getElem.mp hx
  have hpos : 0 < ∑ j ∈ Finset.range v.length, v.getD j 0 * v.getD j 0 := by
    refine Finset.sum_pos' (fun j _ => mul_self_nonneg _) ⟨i, Finset.mem_range.mpr hi, ?_⟩
    rw [List.getD_eq_getElem v 0 hi, hgi]
    exact mul_self_pos.mpr hx0
  have hrw : cosineSimilarity v v =
      (∑ j ∈ Finset.range v.length, v.getD j 0 * v.getD j 0) /
        (Real.sqrt (∑ j ∈ Finset.range v.length, v.getD j 0 * v.getD j 0) *
          Real.sqrt (∑ j ∈ Finset.range v.length, v.getD j 0 * v.getD j 0)) := rfl
  rw [hrw, Real.mul_self_sqrt hpos.le]
  exact div_self (ne_of_gt hpos)

/-- Witness for C7 at the concrete non-zero vector `[1]`. -/
theorem cosineSimilarity_self_witness : cosineSimilarity [1] [1] = 1 :=
  cosineSimilarity_self [1] ⟨1, List.mem_singleton.mpr rfl, one_ne_zero⟩

/-! ## C1 — fusion: lexical ahead of semantic, stable descending sort,
truncation to `limit` -/

/-- C1: for every query, chunk set and limit, the list returned by
`semanticSearch` is the concatenation of the lexical-match results (each
with score 1.0) ahead of the semantic results, sorted descending by score
by a stable sort (ties keep their prior relative order) and truncated to
`limit`; in particular when the combined list does not exceed `limit` no
lexical match is dropped from the output. -/
theorem semanticSearch_fusion (query : String) (docs : List IssuanceDocument)
    (chunks : List DocumentChunk) (limit : Nat) (qe : List ℝ) :
    semanticSearch query docs chunks limit qe =
      (sortByScoreDesc (lexicalResults query docs ++
        searchSimilarChunks qe chunks limit)).take limit
    ∧ (∀ r ∈ lexicalResults query docs, r.score = 1)
    ∧ List.Sorted scoreGE (semanticSearch query docs chunks limit qe)
    ∧ (∀ a b : SearchResult, a.score = b.score →
        [a, b] <+ lexicalResults query docs ++ searchSimilarChunks qe chunks limit →
        [a, b] <+ sortByScoreDesc (lexicalResults query docs ++
          searchSimilarChunks qe chunks limit))
    ∧ ((lexicalResults query docs ++ searchSimilarChunks qe chunks limit).length ≤ limit →
        ∀ r ∈ lexicalResults query docs,
          r ∈ semanticSearch query docs chunks limit qe) := by
  refine ⟨rfl, ?_, ?_, ?_, ?_⟩
  · intro r hr
    obtain ⟨d, _, rfl⟩ := List.mem_map.mp hr
    rfl
  · show List.Sorted scoreGE ((sortByScoreDesc _).take limit)
    exact List.Pairwise.sublist (List.take_sublist _ _) (sortByScoreDesc_sorted _)
  · intro a b hs hsub
    exact pair_sublist_sortByScoreDesc (le_of_eq hs.symm) hsub
  · intro hlen r hr
    have hmem : r ∈ sortByScoreDesc (lexicalResults query docs ++
        searchSimilarChunks qe chunks limit) :=
      (List.mem_insertionSort scoreGE).mpr (List.mem_append_left _ hr)
    have hlen' : (sortByScoreDesc (lexicalResults query docs ++
        searchSimilarChunks qe chunks limit)).length ≤ limit := by
      rw [sortByScoreDesc, List.length_insertionSort]
      exact hlen
    show r ∈ (sortByScoreDesc _).take limit
    rw [List.take_of_length_le hlen']
    exact hmem

/-- Witness for C1 on a one-document corpus with no embedded chunks:
the fused list fits under the limit, so the lexical match survives into
the output of `semanticSearch`. -/
theorem semanticSearch_fusion_witness :
    docSearchResult sampleDoc1 ∈ semanticSearch "1133" [sampleDoc1] [] 5 [] := by
  have h1 : lexicalResults "1133" [sampleDoc1] = [docSearchResult sampleDoc1] := rfl
  have h2 : searchSimilarChunks [] [] 5 = [] := rfl
  refine (semanticSearch_fusion "1133" [sampleDoc1] [] 5 []).2.2.2.2 ?_ _ ?_
  · rw [h1, h2]
    simp
  · rw [h1]
    exact List.mem_singleton.mpr rfl

/-! ## C9 — lexical matches score exactly 1.0 -/

/-- C9: every lexical match produced by `semanticSearch` is assigned
exactly score 1.0, independent of how many query words matched and of
whether the match came from the title pass or the classification-code
pass (both passes build the same `docSearchResult`). -/
theorem lexical_matches_score_one (query : String) (docs : List IssuanceDocument)
    (r : SearchResult) (hr : r ∈ lexicalResults query docs) : r.score = 1 := by
  obtain ⟨d, _, rfl⟩ := List.mem_map.mp hr
  rfl

/-- Witness for C9: the title-only match of `sampleDoc2` is scored 1.0. -/
theorem lexical_matches_score_one_witness : (docSearchResult sampleDoc2).score = 1 := by
  refine lexical_matches_score_one "1133" [sampleDoc2] _ ?_
  have h1 : lexicalResults "1133" [sampleDoc2] = [docSearchResult sampleDoc2] := rfl
  rw [h1]
  exact List.mem_singleton.mpr rfl

/-! ## C10 — lexical matches are not deduplicated per document -/

/-- C10: a document containing a query word both in its title and in its
classification code is included twice among the lexical results — once by
the classification-code pass and once by the title pass — each occurrence
with score 1.0. -/
theorem lexical_matches_not_deduplicated (query : String) (docs : List IssuanceDocument)
    (d : IssuanceDocument) (hd : d ∈ docs)
    (hc : circularNumberMatches (wordsOf query) d = true)
    (ht : titleMatches (wordsOf query) d = true) :
    [docSearchResult d, docSearchResult d] <+ lexicalResults query docs
    ∧ (docSearchResult d).score = 1 := by
  constructor
  · have h1 : docSearchResult d ∈
        (docs.filter (circularNumberMatches (wordsOf query))).map docSearchResult :=
      List.mem_map_of_mem _ (List.mem_filter.mpr ⟨hd, hc⟩)
    have h2 : docSearchResult d ∈
        (docs.filter (titleMatches (wordsOf query))).map docSearchResult :=
      List.mem_map_of_mem _ (List.mem_filter.mpr ⟨hd, ht⟩)
    have hsplit : lexicalResults query docs =
        (docs.filter (circularNumberMatches (wordsOf query))).map docSearchResult ++
          (docs.filter (titleMatches (wordsOf query))).map docSearchResult := by
      simp [lexicalResults, matchingDocs]
    rw [hsplit]
    exact List.Sublist.append (List.singleton_sublist.mpr h1) (List.singleton_sublist.mpr h2)
  · rfl

/-- Witness for C10: `sampleDoc3` matches `"1133"` on both fields and is
listed twice. -/
theorem lexical_matches_not_deduplicated_witness :
    [docSearchResult sampleDoc3, docSearchResult sampleDoc3] <+
      lexicalResults "1133" [sampleDoc3]
    ∧ (docSearchResult sampleDoc3).score = 1 :=
  lexical_matches_not_deduplicated "1133" [sampleDoc3] sampleDoc3
    (List.mem_singleton.mpr rfl) (by decide) (by decide)

/-! ## C8 — no-match searches return empty, not an error -/

/-- C8: when no document matches the query lexically and no stored chunk
holds a non-empty embedding, `semanticSearch` returns the empty result
list, and the full search including the awaited query-embedding provider
call completes successfully with `some []` rather than failing. -/
theorem semanticSearch_no_match_empty (provider : String → Option (List ℝ))
    (query : String) (docs : List IssuanceDocument) (chunks : List DocumentChunk)
    (limit : Nat) (qe : List ℝ)
    (hprov : provider query = some qe)
    (hdocs : ∀ d ∈ docs, titleMatches (wordsOf query) d = false ∧
      circularNumberMatches (wordsOf query) d = false)
    (hchunks : ∀ c ∈ chunks, hasEmbedding c = false) :
    semanticSearch query docs chunks limit qe = []
    ∧ semanticSearchRun provider query docs chunks limit = some [] := by
  have hfil : chunks.filter hasEmbedding = [] :=
    List.filter_eq_nil_iff.mpr (fun c hc => by simp [hchunks c hc])
  have hsem : searchSimilarChunks qe chunks limit = [] := by
    simp [searchSimilarChunks, hfil]
  have hcirc : docs.filter (circularNumberMatches (wordsOf query)) = [] :=
    List.filter_eq_nil_iff.mpr (fun d hd => by simp [(hdocs d hd).2])
  have htit : docs.filter (titleMatches (wordsOf query)) = [] :=
    List.filter_eq_nil_iff.mpr (fun d hd => by simp [(hdocs d hd).1])
  have hlex : lexicalResults query docs = [] := by
    simp [lexicalResults, matchingDocs, hcirc, htit]
  have hmain : semanticSearch query docs chunks limit qe = [] := by
    show (sortByScoreDesc (lexicalResults query docs ++
      searchSimilarChunks qe chunks limit)).take limit = []
    rw [hlex, hsem]
    simp [sortByScoreDesc, List.insertionSort]
  refine ⟨hmain, ?_⟩
  show (generateQueryEmbedding provider query).map
    (fun qe => semanticSearch query docs chunks limit qe) = some []
  show (provider query).map (fun qe => semanticSearch query docs chunks limit qe) = some []
  rw [hprov, Option.map_some']
  exact congrArg some hmain

/-- Witness for C8: the query `"zzz"` matches nothing in a corpus with one
non-matching document and one unembedded chunk; the search returns `[]`
without an error. -/
theorem semanticSearch_no_match_empty_witness :
    semanticSearch "zzz" [sampleDoc4] [sampleChunk] 5 [] = []
    ∧ semanticSearchRun (fun _ => some []) "zzz" [sampleDoc4] [sampleChunk] 5 = some [] :=
  semanticSearch_no_match_empty (fun _ => some []) "zzz" [sampleDoc4] [sampleChunk] 5 []
    rfl (by decide) (by decide)

/-! ## C2 — classification-code matches rank ahead of title-only matches -/

/-- Every semantic result carries `source := some …` (it is built from the
chunk metadata), unlike lexical results whose `source` is the undefined
`doc.source`.  This separates the two kinds of results value-wise. -/
theorem searchSimilarChunks_source_isSome (qe : List ℝ) (chunks : List DocumentChunk)
    (limit : Nat) : ∀ x ∈ searchSimilarChunks qe chunks limit, x.source.isSome := by
  intro x hx
  simp only [searchSimilarChunks] at hx
  split at hx
  · exact absurd hx (List.not_mem_nil _)
  · have hx' := List.mem_of_mem_take hx
    have hx'' := (List.mem_insertionSort scoreGE).mp hx'
    obtain ⟨c, _, rfl⟩ := List.mem_map.mp hx''
    rfl

/-- If the `p`-selected elements of `l` start with `r1`, and `r2 ≠ r1` is a
`p`-selected element of `l.take n`, then `r1` appears before `r2` inside
`l.take n`. -/
theorem pair_sublist_take_of_filter (p : SearchResult → Bool) (l : List SearchResult)
    (n : Nat) (r1 r2 : SearchResult) (hne : r2 ≠ r1)
    (hhead : ∃ t, l.filter p = r1 :: t)
    (hr2 : r2 ∈ (l.take n).filter p) :
    [r1, r2] <+ l.take n := by
  obtain ⟨t, ht⟩ := hhead
  have hsplit : l.filter p = (l.take n).filter p ++ (l.drop n).filter p := by
    rw [← List.filter_append, List.take_append_drop]
  cases hF : (l.take n).filter p with
  | nil =>
    rw [hF] at hr2
    exact absurd hr2 (List.not_mem_nil _)
  | cons o ot =>
    rw [hF] at hsplit hr2
    rw [ht] at hsplit
    have ho : r1 = o ∧ t = ot ++ (l.drop n).filter p := by
      rw [List.cons_append] at hsplit
      exact ⟨by injection hsplit, by injection hsplit⟩
    obtain ⟨ho1, -⟩ := ho
    subst ho1
    have hr2' : r2 ∈ ot := by
      rcases List.mem_cons.mp hr2 with h | h
      · exact absurd h hne
      · exact h
    have hpair : [r1, r2] <+ r1 :: ot :=
      List.Sublist.cons₂ r1 (List.singleton_sublist.mpr hr2')
    rw [← hF] at hpair
    exact hpair.trans (List.filter_sublist _)

/-- C2: whenever document `d1` lexically matches the query on its
classification code and document `d2` matches only on its title (the two
documents having distinct, unique ids), the classification-code match is
placed strictly ahead of the title-only match in the list returned by
`semanticSearch` — provided the title-only match appears in the (possibly
truncated) output at all. -/
theorem classification_match_ranks_first (query : String) (docs : List IssuanceDocument)
    (chunks : List DocumentChunk) (limit : Nat) (qe : List ℝ)
    (d1 d2 : IssuanceDocument)
    (hd1 : d1 ∈ docs) (hc1 : circularNumberMatches (wordsOf query) d1 = true)
    (hd2 : d2 ∈ docs) (ht2 : titleMatches (wordsOf query) d2 = true)
    (hc2 : circularNumberMatches (wordsOf query) d2 = false)
    (hid : d1.id ≠ d2.id)
    (hu1 : ∀ d ∈ docs, d.id = d1.id → d = d1)
    (hu2 : ∀ d ∈ docs, d.id = d2.id → d = d2)
    (hout : docSearchResult d2 ∈ semanticSearch query docs chunks limit qe) :
    [docSearchResult d1, docSearchResult d2] <+
      semanticSearch query docs chunks limit qe := by
  set p : SearchResult → Bool := fun x =>
    x.source.isNone && (decide (x.documentId = d1.id) || decide (x.documentId = d2.id))
    with hpdef
  have pr1 : p (docSearchResult d1) = true := by simp [hpdef, docSearchResult]
  have pr2 : p (docSearchResult d2) = true := by simp [hpdef, docSearchResult]
  have hsem_p : ∀ x ∈ searchSimilarChunks qe chunks limit, p x = false := by
    intro x hx
    obtain ⟨s, hs⟩ := Option.isSome_iff_exists.mp
      (searchSimilarChunks_source_isSome qe chunks limit x hx)
    simp [hpdef, hs]
  have hcirc_p : ∀ x ∈ (docs.filter (circularNumberMatches (wordsOf query))).map
      docSearchResult, p x = true → x = docSearchResult d1 := by
    intro x hx hpx
    obtain ⟨d, hdmem, rfl⟩ := List.mem_map.mp hx
    obtain ⟨hddocs, hdcirc⟩ := List.mem_filter.mp hdmem
    have hdid : d.id = d1.id ∨ d.id = d2.id := by
      simpa [hpdef, docSearchResult] using hpx
    rcases hdid with h | h
    · rw [hu1 d hddocs h]
    · rw [hu2 d hddocs h] at hdcirc
      rw [hc2] at hdcirc
      exact Bool.noConfusion hdcirc
  have hr1mem : docSearchResult d1 ∈
      ((docs.filter (circularNumberMatches (wordsOf query))).map docSearchResult).filter p :=
    List.mem_filter.mpr ⟨List.mem_map_of_mem _ (List.mem_filter.mpr ⟨hd1, hc1⟩), pr1⟩
  have hcircF : ∃ t,
      ((docs.filter (circularNumberMatches (wordsOf query))).map docSearchResult).filter p =
        docSearchResult d1 :: t := by
    cases hF : ((docs.filter (circularNumberMatches (wordsOf query))).map
        docSearchResult).filter p with
    | nil =>
      rw [hF] at hr1mem
      exact absurd hr1mem (List.not_mem_nil _)
    | cons a t =>
      have hamem : a ∈ ((docs.filter (circularNumberMatches (wordsOf query))).map
          docSearchResult).filter p := by
        rw [hF]
        exact List.mem_cons_self a t
      have ha : a = docSearchResult d1 :=
        hcirc_p a (List.mem_of_mem_filter hamem) (List.of_mem_filter hamem)
      exact ⟨t, by rw [ha]⟩
  have hsemF : (searchSimilarChunks qe chunks limit).filter p = [] :=
    List.filter_eq_nil_iff.mpr (fun x hx => by simp [hsem_p x hx])
  have hfused : lexicalResults query docs ++ searchSimilarChunks qe chunks limit =
      (docs.filter (circularNumberMatches (wordsOf query))).map docSearchResult ++
        ((docs.filter (titleMatches (wordsOf query))).map docSearchResult ++
          searchSimilarChunks qe chunks limit) := by
    simp [lexicalResults, matchingDocs]
  have hfusedF : ∃ t,
      ((lexicalResults query docs ++ searchSimilarChunks qe chunks limit)).filter p =
        docSearchResult d1 :: t := by
    obtain ⟨t, ht⟩ := hcircF
    refine ⟨t ++ ((docs.filter (titleMatches (wordsOf query))).map docSearchResult).filter p,
      ?_⟩
    rw [hfused, List.filter_append, List.filter_append, ht, hsemF]
    simp
  have hscore : ∀ x ∈ lexicalResults query docs ++ searchSimilarChunks qe chunks limit,
      p x = true → x.score = 1 := by
    intro x hx hpx
    rcases List.mem_append.mp hx with h | h
    · obtain ⟨d, _, rfl⟩ := List.mem_map.mp h
      rfl
    · rw [hsem_p x h] at hpx
      exact Bool.noConfusion hpx
  have hstab : (sortByScoreDesc (lexicalResults query docs ++
      searchSimilarChunks qe chunks limit)).filter p =
      (lexicalResults query docs ++ searchSimilarChunks qe chunks limit).filter p :=
    filter_sortByScoreDesc p 1 _ hscore
  have hhead : ∃ t, (sortByScoreDesc (lexicalResults query docs ++
      searchSimilarChunks qe chunks limit)).filter p = docSearchResult d1 :: t := by
    obtain ⟨t, ht⟩ := hfusedF
    exact ⟨t, by rw [hstab, ht]⟩
  have hne : docSearchResult d2 ≠ docSearchResult d1 := by
    intro h
    exact hid (by injection h with h1 _; exact h1.symm)
  have hr2take : docSearchResult d2 ∈ ((sortByScoreDesc (lexicalResults query docs ++
      searchSimilarChunks qe chunks limit)).take limit).filter p :=
    List.mem_filter.mpr ⟨hout, pr2⟩
  exact pair_sublist_take_of_filter p _ limit _ _ hne hhead hr2take

/-- Witness for C2: on the corpus `[sampleDoc1, sampleDoc2]` and query
`"1133"`, the classification-code match (`sampleDoc1`) precedes the
title-only match (`sampleDoc2`) in the search output. -/
theorem classification_match_ranks_first_witness :
    [docSearchResult sampleDoc1, docSearchResult sampleDoc2] <+
      semanticSearch "1133" [sampleDoc1, sampleDoc2] [] 5 [] := by
  have hfused : lexicalResults "1133" [sampleDoc1, sampleDoc2] ++
      searchSimilarChunks [] [] 5 =
      [docSearchResult sampleDoc1, docSearchResult sampleDoc2] := rfl
  have hsort : semanticSearch "1133" [sampleDoc1, sampleDoc2] [] 5 [] =
      [docSearchResult sampleDoc1, docSearchResult sampleDoc2] := by
    show (sortByScoreDesc (lexicalResults "1133" [sampleDoc1, sampleDoc2] ++
      searchSimilarChunks [] [] 5)).take 5 = _
    rw [hfused]
    show (List.orderedInsert scoreGE (docSearchResult sampleDoc1)
      (List.orderedInsert scoreGE (docSearchResult sampleDoc2) [])).take 5 = _
    have hge : scoreGE (docSearchResult sampleDoc1) (docSearchResult sampleDoc2) :=
      le_refl (1 : ℝ)
    rw [List.orderedInsert_nil, List.orderedInsert, if_pos hge]
    rfl
  refine classification_match_ranks_first "1133" [sampleDoc1, sampleDoc2] [] 5 []
    sampleDoc1 sampleDoc2 (List.mem_cons_self _ _) (by decide)
    (List.mem_cons_of_mem _ (List.mem_singleton.mpr rfl)) (by decide) (by decide)
    (by decide) ?_ ?_ ?_
  · intro d hd hdid
    rcases List.mem_cons.mp hd with h | h
    · exact h
    · rw [List.mem_singleton] at h
      subst h
      exact absurd hdid (by decide)
  · intro d hd hdid
    rcases List.mem_cons.mp hd with h | h
    · subst h
      exact absurd hdid (by decide)
    · rw [List.mem_singleton] at h
      exact h
  · rw [hsort]
    exact List.mem_cons_of_mem _ (List.mem_singleton.mpr rfl)

/-! ## C3 — a failing embedding sub-batch never aborts the batch -/

theorem generateEmbeddings_nil (provider : List String → Option (List (List ℝ))) :
    generateEmbeddings provider [] = [] := by
  rw [generateEmbeddings]
  rfl

/-- One unfolding of the `generateEmbeddings` sub-batch loop. -/
theorem generateEmbeddings_step (provider : List String → Option (List (List ℝ)))
    (chunks : List DocumentChunk) (h : ¬chunks.isEmpty) :
    generateEmbeddings provider chunks =
      (match provider ((chunks.take 20).map (fun c => c.text)) with
        | some embeddings =>
            List.zipWith (fun c e => { c with embedding := some e }) (chunks.take 20) embeddings
        | none => chunks.take 20) ++ generateEmbeddings provider (chunks.drop 20) := by
  rw [generateEmbeddings]
  simp only [h]
  rfl

/-- Attaching embeddings positionally does not change text or metadata. -/
theorem map_textMeta_zipWith :
    ∀ (a : List DocumentChunk) (b : List (List ℝ)), a.length ≤ b.length →
      (List.zipWith (fun (c : DocumentChunk) (e : List ℝ) =>
          { c with embedding := some e }) a b).map
        (fun (c : DocumentChunk) => (c.text, c.metadata)) =
        a.map (fun (c : DocumentChunk) => (c.text, c.metadata)) := by
  intro a
  induction a with
  | nil => intro b _; rfl
  | cons c a ih =>
    intro b hb
    cases b with
    | nil => simp at hb
    | cons e b =>
      simp only [List.zipWith, List.map]
      rw [ih b (by simpa using hb)]

/-- C3: under the §4.2 provider contract (one embedding per input text on
success), `generateEmbeddings` returns a list with the same length and the
same texts and metadata, in the same order, as its input — a failing
sub-batch call leaves that sub-batch's chunks in the result unmodified and
processing continues with the next sub-batch. -/
theorem generateEmbeddings_preserves (provider : List String → Option (List (List ℝ)))
    (chunks : List DocumentChunk)
    (hcount : ∀ ts es, provider ts = some es → es.length = ts.length) :
    (generateEmbeddings provider chunks).map (fun c => (c.text, c.metadata)) =
      chunks.map (fun c => (c.text, c.metadata))
    ∧ (generateEmbeddings provider chunks).length = chunks.length
    ∧ (provider ((chunks.take 20).map (fun c => c.text)) = none →
        generateEmbeddings provider chunks =
          chunks.take 20 ++ generateEmbeddings provider (chunks.drop 20)) := by
  have main : ∀ (n : Nat) (cs : List DocumentChunk), cs.length ≤ n →
      (generateEmbeddings provider cs).map (fun c => (c.text, c.metadata)) =
        cs.map (fun c => (c.text, c.metadata)) := by
    intro n
    induction n with
    | zero =>
      intro cs hcs
      have : cs = [] := List.length_eq_zero.mp (Nat.le_zero.mp hcs)
      subst this
      rw [generateEmbeddings_nil]
    | succ n ih =>
      intro cs hcs
      by_cases hemp : cs.isEmpty
      · have : cs = [] := List.isEmpty_iff.mp hemp
        subst this
        rw [generateEmbeddings_nil]
      · have hne : cs ≠ [] := fun h => hemp (by simp [h])
        have hpos : 0 < cs.length := List.length_pos.mpr hne
        rw [generateEmbeddings_step provider cs hemp, List.map_append]
        have hdrop : (cs.drop 20).length ≤ n := by
          simp only [List.length_drop]
          omega
        rw [ih (cs.drop 20) hdrop]
        have hbatch : ((match provider ((cs.take 20).map (fun c => c.text)) with
            | some embeddings =>
                List.zipWith (fun (c : DocumentChunk) (e : List ℝ) =>
                  { c with embedding := some e }) (cs.take 20) embeddings
            | none => cs.take 20) : List DocumentChunk).map
              (fun (c : DocumentChunk) => (c.text, c.metadata)) =
            (cs.take 20).map (fun (c : DocumentChunk) => (c.text, c.metadata)) := by
          cases hp : provider ((cs.take 20).map (fun c => c.text)) with
          | none => rfl
          | some embeddings =>
            have hlen : embeddings.length = ((cs.take 20).map (fun c => c.text)).length :=
              hcount _ _ hp
            rw [List.length_map] at hlen
            exact map_textMeta_zipWith (cs.take 20) embeddings (le_of_eq hlen.symm)
        rw [hbatch, ← List.map_append, List.take_append_drop]
  have hmap := main chunks.length chunks (le_refl _)
  refine ⟨hmap, ?_, ?_⟩
  · have := congrArg List.length hmap
    simpa using this
  · intro hp
    by_cases hemp : chunks.isEmpty
    · have : chunks = [] := List.isEmpty_iff.mp hemp
      subst this
      simp [generateEmbeddings_nil]
    · rw [generateEmbeddings_step provider chunks hemp, hp]

/-- Witness for C3: a provider that always fails leaves the single-chunk
batch untouched. -/
theorem generateEmbeddings_preserves_witness :
    (generateEmbeddings (fun _ => none) [sampleChunk]).map (fun c => (c.text, c.metadata)) =
      [sampleChunk].map (fun c => (c.text, c.metadata))
    ∧ (generateEmbeddings (fun _ => none) [sampleChunk]).length = [sampleChunk].length
    ∧ ((fun (_ : List String) => (none : Option (List (List ℝ))))
          (([sampleChunk].take 20).map (fun c => c.text)) = none →
        generateEmbeddings (fun _ => none) [sampleChunk] =
          [sampleChunk].take 20 ++ generateEmbeddings (fun _ => none) ([sampleChunk].drop 20)) :=
  generateEmbeddings_preserves (fun _ => none) [sampleChunk]
    (fun _ es h => Option.noConfusion h)

/-! ## C4 — the embedding-generation workflow is a no-op on a fully
processed corpus -/

/-- C4: when every held document already has (truthy) content, the
unprocessed filter of `processDocuments` is empty, so the workflow returns
without re-splitting any document, without issuing any provider call, and
without touching the in-memory or durable state; hence running it twice
equals running it once. -/
theorem processDocuments_noop (pp : IssuanceDocument → IssuanceDocument)
    (provider : List String → Option (List (List ℝ))) (st : StoreState)
    (h : ∀ d ∈ st.documents, strTruthy d.content = true) :
    processDocuments pp provider st = (st, 0, 0)
    ∧ processDocuments pp provider (processDocuments pp provider st).1 =
        processDocuments pp provider st := by
  have hfil : st.documents.filter
      (fun d => !strTruthy d.content && strTruthy d.downloadLink) = [] :=
    List.filter_eq_nil_iff.mpr (fun d hd => by simp [h d hd])
  have h1 : processDocuments pp provider st = (st, 0, 0) := by
    simp only [processDocuments]
    rw [hfil]
    rfl
  refine ⟨h1, ?_⟩
  rw [h1]
  exact h1

/-- Witness for C4 on a store holding one fully processed document. -/
theorem processDocuments_noop_witness :
    processDocuments id (fun _ => none) sampleState = (sampleState, 0, 0)
    ∧ processDocuments id (fun _ => none)
        (processDocuments id (fun _ => none) sampleState).1 =
        processDocuments id (fun _ => none) sampleState :=
  processDocuments_noop id (fun _ => none) sampleState (by decide)

/-! ## C5 — snapshot / restore round-trip -/

set_option maxRecDepth 4000 in
/-- C5: restoring (`loadFromStorage`) from the snapshot that
`processDocuments` writes yields documents with identical identifying
fields, chunks with identical text (up to the 1000-chunk cap), and no
embeddings on any restored chunk (they are stripped at snapshot time; the
previously stored chunks carry none by the same invariant). -/
theorem snapshot_restore_roundtrip (st : StoreState) (docs : List IssuanceDocument)
    (existingChunks newChunks : List DocumentChunk)
    (hex : ∀ c ∈ existingChunks, c.embedding = none) :
    ((loadFromStorage (snapshotWrite st docs existingChunks newChunks)).1).documents.map
        identifyingFields = docs.map identifyingFields
    ∧ ((loadFromStorage (snapshotWrite st docs existingChunks newChunks)).1).chunks.map
        (fun c => c.text) =
        (takeLast 1000 (existingChunks ++ newChunks)).map (fun c => c.text)
    ∧ ∀ c ∈ ((loadFromStorage (snapshotWrite st docs existingChunks newChunks)).1).chunks,
        c.embedding = none := by
  have hdocs : ((loadFromStorage (snapshotWrite st docs existingChunks
      newChunks)).1).documents = snapshotDocs docs := rfl
  have hchunks : ((loadFromStorage (snapshotWrite st docs existingChunks
      newChunks)).1).chunks = snapshotChunks existingChunks newChunks := by
    simp [loadFromStorage, snapshotWrite]
  refine ⟨?_, ?_, ?_⟩
  · rw [hdocs, snapshotDocs, List.map_map]
    exact List.map_congr_left (fun d _ => rfl)
  · rw [hchunks, snapshotChunks, map_takeLast, map_takeLast]
    refine congrArg (takeLast 1000) ?_
    rw [List.map_append, List.map_append, List.map_map]
    refine congrArg (fun z => existingChunks.map (fun c => c.text) ++ z) ?_
    exact List.map_congr_left (fun c _ => rfl)
  · rw [hchunks]
    intro c hc
    have hc' : c ∈ existingChunks ++ newChunks.map chunkForStorage :=
      (takeLast_sublist 1000 _).mem hc
    rcases List.mem_append.mp hc' with h | h
    · exact hex c h
    · obtain ⟨c', _, rfl⟩ := List.mem_map.mp h
      rfl

/-- Witness for C5 with one document and one freshly embedded chunk. -/
theorem snapshot_restore_roundtrip_witness :
    ((loadFromStorage (snapshotWrite sampleState [sampleDoc1] []
        [sampleChunk])).1).documents.map identifyingFields =
        [sampleDoc1].map identifyingFields
    ∧ ((loadFromStorage (snapshotWrite sampleState [sampleDoc1] []
        [sampleChunk])).1).chunks.map (fun c => c.text) =
        (takeLast 1000 ([] ++ [sampleChunk])).map (fun c => c.text)
    ∧ ∀ c ∈ ((loadFromStorage (snapshotWrite sampleState [sampleDoc1] []
        [sampleChunk])).1).chunks, c.embedding = none :=
  snapshot_restore_roundtrip sampleState [sampleDoc1] [] [sampleChunk]
    (fun c hc => absurd hc (List.not_mem_nil c))

/-! ## C6 — FIFO eviction of the durable chunk snapshot -/

/-- C6: over any sequence of appends, the durable `rag_chunks` entry is
always the `slice(-1000)` of everything ever appended (embeddings
stripped): it never exceeds 1000 entries, and once `1000 + k` chunks have
been appended it holds exactly the last 1000 by insertion order (the
oldest `k` are evicted). -/
theorem storedChunks_eviction (batches : List (List DocumentChunk)) (k : Nat) :
    batches.foldl (fun s b => snapshotChunks s b) [] =
      takeLast 1000 (batches.flatten.map chunkForStorage)
    ∧ (batches.foldl (fun s b => snapshotChunks s b) []).length ≤ 1000
    ∧ (batches.flatten.length = 1000 + k →
        batches.foldl (fun s b => snapshotChunks s b) [] =
          (batches.flatten.map chunkForStorage).drop k) := by
  have main : ∀ bs : List (List DocumentChunk),
      bs.foldl (fun s b => snapshotChunks s b) [] =
        takeLast 1000 (bs.flatten.map chunkForStorage) := by
    intro bs
    induction bs using List.reverseRecOn with
    | nil => rfl
    | append_singleton bs b ih =>
      rw [List.foldl_append, List.foldl_cons, List.foldl_nil, ih]
      show snapshotChunks (takeLast 1000 (bs.flatten.map chunkForStorage)) b = _
      rw [snapshotChunks, takeLast_append_takeLast]
      congr 1
      rw [List.flatten_append, List.map_append]
      congr 1
      simp
  refine ⟨main batches, ?_, ?_⟩
  · rw [main batches]
    exact takeLast_length_le 1000 _
  · intro hk
    rw [main batches]
    exact takeLast_eq_drop (by rw [List.length_map, hk])

/-- Witness for C6: appending exactly 1000 chunks in one batch fills the
cap with no eviction (`k = 0`). -/
theorem storedChunks_eviction_witness :
    [List.replicate 1000 sampleChunk].foldl (fun s b => snapshotChunks s b) [] =
      ([List.replicate 1000 sampleChunk].flatten.map chunkForStorage).drop 0 :=
  (storedChunks_eviction [List.replicate 1000 sampleChunk] 0).2.2
    (by rw [List.flatten_cons, List.flatten_nil, List.append_nil, List.length_replicate])

end BspRag
